import Mathlib

/-!
Shallow embedding of the gowon-steam command core (steam.go): the HTTP API
client operations, the achievement aggregator, the colour formatter and the
two command resolvers, together with proofs of the behavioural properties
of the specification.

The HTTP transport is modelled as a function from a URL to either a
transport error message or a response carrying a status code and a body
string.  JSON decoding (the json.Unmarshal library call) is modelled as a
parameter: a function from a body string to either a parser error message
or the decoded structure.
-/

/-- An HTTP response as seen by the client code: status code and body. -/
structure httpResponse where
  StatusCode : Int
  Body : String
deriving DecidableEq, Repr

/-- The HTTP transport: a URL either fails with a transport error message
or yields a response. -/
def Client : Type := String → Except String httpResponse

/-- The distinct failure kinds of the Go code: transport errors and read
errors from the HTTP layer, decode errors from json.Unmarshal carrying the
parser message verbatim, and the two sentinel error values
profileNotFoundErr and profileNotPublicErr. -/
inductive goError where
  | transport (msg : String)
  | decode (msg : String)
  | profileNotFound
  | profileNotPublic
deriving DecidableEq, Repr

/-- Inner payload of the vanity resolution response. -/
structure resolveVanityURLResponse where
  SteamId : String
  Success : Int
deriving DecidableEq, Repr

/-- Decoded body of the ResolveVanityURL endpoint. -/
structure resolveVanityURLRes where
  Response : resolveVanityURLResponse
deriving DecidableEq, Repr

/-- One recently played game: numeric app id and display name. -/
structure recentlyPlayedGame where
  AppId : Int
  Name : String
deriving DecidableEq, Repr

/-- Inner payload of the GetRecentlyPlayedGames endpoint. -/
structure recentlyPlayedResponse where
  Games : List recentlyPlayedGame
deriving DecidableEq, Repr

/-- Decoded body of the GetRecentlyPlayedGames endpoint. -/
structure recentlyPlayedRes where
  Response : recentlyPlayedResponse
deriving DecidableEq, Repr

/-- One achievement: unlock time (unix epoch, 0 meaning never unlocked),
name and description. -/
structure playerAchievement where
  UnlockTime : Int
  Name : String
  Description : String
deriving DecidableEq, Repr

/-- Inner payload of the GetPlayerAchievements endpoint. -/
structure playerStats where
  GameName : String
  Achievements : List playerAchievement
  Error : String
deriving DecidableEq, Repr

/-- Decoded body of the GetPlayerAchievements endpoint. -/
structure playerAchievementsRes where
  PlayerStats : playerStats
deriving DecidableEq, Repr

/-- The vanity resolution URL built by fmt.Sprintf from the
resolveVanityUrl template constant. -/
def resolveVanityUrl (apiKey user : String) : String :=
  "https://api.steampowered.com/ISteamUser/ResolveVanityURL/v1/?key=" ++ apiKey
    ++ "&vanityurl=" ++ user

/-- The recently played URL built by fmt.Sprintf from the
recentlyPlayedUrl template constant. -/
def recentlyPlayedUrl (apiKey id : String) : String :=
  "https://api.steampowered.com/IPlayerService/GetRecentlyPlayedGames/v1/?key=" ++ apiKey
    ++ "&steamid=" ++ id

/-- The player achievements URL built by fmt.Sprintf from the
playerAchievementsUrl template constant. -/
def playerAchievementsUrl (apiKey id : String) (appId : Int) : String :=
  "https://api.steampowered.com/ISteamUserStats/GetPlayerAchievements/v0001/?key=" ++ apiKey
    ++ "&steamid=" ++ id ++ "&appid=" ++ toString appId ++ "&format=json&l=en"

/-- steamGetId: resolve a vanity user name to a steam id.  Transport
failure and decode failure propagate; a decoded response whose Success
field is not 1 yields the profileNotFoundErr sentinel. -/
def steamGetId (dv : String → Except String resolveVanityURLRes)
    (client : Client) (apiKey user : String) : Except goError String :=
  match client (resolveVanityUrl apiKey user) with
  | .error e => .error (.transport e)
  | .ok res =>
    match dv res.Body with
    | .error e => .error (.decode e)
    | .ok j =>
      if j.Response.Success ≠ 1 then .error .profileNotFound
      else .ok j.Response.SteamId

/-- The Names method of recentlyPlayedRes: the game names in list order. -/
def recentlyPlayedRes.Names (rpr : recentlyPlayedRes) : List String :=
  rpr.Response.Games.map (fun g => g.Name)

/-- The Ids method of recentlyPlayedRes: the app ids in list order. -/
def recentlyPlayedRes.Ids (rpr : recentlyPlayedRes) : List Int :=
  rpr.Response.Games.map (fun g => g.AppId)

/-- getRecentlyPlayed: fetch the recently played games of a steam id.
Transport and decode failures propagate. -/
def getRecentlyPlayed (dr : String → Except String recentlyPlayedRes)
    (client : Client) (apiKey id : String) : Except goError recentlyPlayedRes :=
  match client (recentlyPlayedUrl apiKey id) with
  | .error e => .error (.transport e)
  | .ok res =>
    match dr res.Body with
    | .error e => .error (.decode e)
    | .ok j => .ok j

/-- The fixed colour palette of colourList. -/
def colours : List String :=
  ["green", "red", "blue", "orange", "magenta", "cyan", "yellow"]

/-- The colour used for position n: colours[n % len(colours)]. -/
def colourAt (n : Nat) : String :=
  colours.getD (n % colours.length) ""

/-- The loop body of colourList, carrying the running index n. -/
def colourListAux (n : Nat) : List String → List String
  | [] => []
  | i :: rest =>
    ("\x7b" ++ colourAt n ++ "\x7d" ++ i ++ "\x7bclear\x7d") :: colourListAux (n + 1) rest

/-- colourList: wrap each item of the input in a colour tag pair, cycling
through the palette by position. -/
def colourList (input : List String) : List String :=
  colourListAux 0 input

/-- steamLastGame: resolve the id, fetch the recently played games and
format the reply.  The profileNotFoundErr sentinel becomes a normal
reply; other errors propagate. -/
def steamLastGame (dv : String → Except String resolveVanityURLRes)
    (dr : String → Except String recentlyPlayedRes)
    (client : Client) (apiKey user : String) : Except goError String :=
  match steamGetId dv client apiKey user with
  | .error .profileNotFound => .ok ("Error: no id found for " ++ user)
  | .error e => .error e
  | .ok id =>
    match getRecentlyPlayed dr client apiKey id with
    | .error e => .error e
    | .ok recentlyPlayed =>
      if recentlyPlayed.Response.Games.length = 0 then
        .ok (user ++ " has no recently played steam games")
      else
        .ok (user ++ "\x27s recently played steam games: "
          ++ String.intercalate ", " (colourList recentlyPlayed.Names))

/-- getAchievements: fetch the achievements of one app for a steam id.
Transport and decode failures propagate; a decoded response whose Error
field equals the upstream sentinel string yields the profileNotPublicErr
sentinel. -/
def getAchievements (da : String → Except String playerAchievementsRes)
    (client : Client) (apiKey id : String) (appId : Int) :
    Except goError playerAchievementsRes :=
  match client (playerAchievementsUrl apiKey id appId) with
  | .error e => .error (.transport e)
  | .ok res =>
    match da res.Body with
    | .error e => .error (.decode e)
    | .ok j =>
      if j.PlayerStats.Error = "Profile is not public" then .error .profileNotPublic
      else .ok j

/-- The Go zero value of playerAchievementsRes, the initial value of the
game variable in newestAchievement. -/
def emptyAchievementsRes : playerAchievementsRes :=
  { PlayerStats := { GameName := "", Achievements := [], Error := "" } }

/-- The initial value of the newest variable in newestAchievement: unlock
time 0, everything else the zero value. -/
def initialNewest : playerAchievement :=
  { UnlockTime := 0, Name := "", Description := "" }

/-- newestAchievement: scan every achievement of every entry of the map,
keeping the latest strictly-greater unlock time seen so far.  The Go map
is modelled as an association list; iteration follows list order. -/
def newestAchievement (am : List (String × playerAchievementsRes)) :
    playerAchievementsRes × playerAchievement :=
  am.foldl
    (fun acc kv =>
      kv.2.PlayerStats.Achievements.foldl
        (fun acc2 a =>
          if a.UnlockTime > acc2.2.UnlockTime then (kv.2, a) else acc2)
        acc)
    (emptyAchievementsRes, initialNewest)

/-- Insert into the association-list model of the Go map: replace the
value at an existing key, otherwise append a new binding. -/
def mapInsert (m : List (String × playerAchievementsRes)) (k : String)
    (v : playerAchievementsRes) : List (String × playerAchievementsRes) :=
  if m.any (fun p => p.1 = k) then
    m.map (fun p => if p.1 = k then (k, v) else p)
  else m ++ [(k, v)]

/-- Lookup in the association-list model of the Go map. -/
def mapLookup (m : List (String × playerAchievementsRes)) (k : String) :
    Option playerAchievementsRes :=
  (m.find? (fun p => p.1 = k)).map (fun p => p.2)

/-- The achievement-fetching loop of steamLastAchievement: fetch each app
id in turn, stopping at the first failure, and key each response by its
reported game name. -/
def buildAchievementsMap (da : String → Except String playerAchievementsRes)
    (client : Client) (apiKey id : String) :
    List Int → List (String × playerAchievementsRes) →
    Except goError (List (String × playerAchievementsRes))
  | [], m => .ok m
  | i :: rest, m =>
    match getAchievements da client apiKey id i with
    | .error e => .error e
    | .ok as =>
      buildAchievementsMap da client apiKey id rest
        (mapInsert m as.PlayerStats.GameName as)

/-- steamLastAchievement: resolve the id, fetch the recently played games,
fetch the achievements of each, aggregate, and format the reply.  The
profileNotFoundErr and profileNotPublicErr sentinels become normal
replies; other errors propagate. -/
def steamLastAchievement (dv : String → Except String resolveVanityURLRes)
    (dr : String → Except String recentlyPlayedRes)
    (da : String → Except String playerAchievementsRes)
    (client : Client) (apiKey user : String) : Except goError String :=
  match steamGetId dv client apiKey user with
  | .error .profileNotFound => .ok ("Error: no id found for " ++ user)
  | .error e => .error e
  | .ok id =>
    match getRecentlyPlayed dr client apiKey id with
    | .error e => .error e
    | .ok recentlyPlayed =>
      match buildAchievementsMap da client apiKey id recentlyPlayed.Ids [] with
      | .error .profileNotPublic => .ok "Error: profile is not public"
      | .error e => .error e
      | .ok am =>
        let gn := newestAchievement am
        if gn.2.UnlockTime = 0 then
          .ok (user ++ " has no recently unlocked steam achievements")
        else
          .ok (user ++ "\x27s last steam achievement: " ++ gn.1.PlayerStats.GameName
            ++ " - " ++ gn.2.Name ++ " (" ++ gn.2.Description ++ ")")

/-!  Concrete fixtures used by witnesses and counterexamples.  -/

/-- Fixture: title A with achievements unlocked at 3 and 7. -/
def resA : playerAchievementsRes :=
  ⟨⟨"A", [⟨3, "x", "dx"⟩, ⟨7, "y", "dy"⟩], ""⟩⟩

/-- Fixture: title B with one achievement unlocked at 5. -/
def resB : playerAchievementsRes :=
  ⟨⟨"B", [⟨5, "z", "dz"⟩], ""⟩⟩

/-- Fixture: title T1 with one achievement unlocked at 9. -/
def resT1 : playerAchievementsRes :=
  ⟨⟨"T1", [⟨9, "first", "d1"⟩], ""⟩⟩

/-- Fixture: title T2 with one achievement also unlocked at 9. -/
def resT2 : playerAchievementsRes :=
  ⟨⟨"T2", [⟨9, "second", "d2"⟩], ""⟩⟩

/-- Fixture transport: every URL yields status 200 with the URL itself as
body, so decoders can distinguish requests. -/
def okClient : Client := fun url => .ok ⟨200, url⟩

/-- Fixture transport: every URL yields status 500 with the URL itself as
body, differing from okClient only in the status code. -/
def client500 : Client := fun url => .ok ⟨500, url⟩

/-- Fixture vanity decoder: success 1, steam id 999. -/
def dvOk : String → Except String resolveVanityURLRes := fun _ => .ok ⟨⟨"999", 1⟩⟩

/-- Fixture vanity decoder: success 0. -/
def dvNotFound : String → Except String resolveVanityURLRes := fun _ => .ok ⟨⟨"", 0⟩⟩

/-- Fixture vanity decoder: parse failure with the Go parser message. -/
def dvErr : String → Except String resolveVanityURLRes :=
  fun _ => .error "unexpected end of JSON input"

/-- Fixture recently-played decoder: one game G with app id 1. -/
def drOne : String → Except String recentlyPlayedRes := fun _ => .ok ⟨⟨[⟨1, "G"⟩]⟩⟩

/-- Fixture recently-played decoder: no games. -/
def drEmpty : String → Except String recentlyPlayedRes := fun _ => .ok ⟨⟨[]⟩⟩

/-- Fixture recently-played decoder: three games A, B, C. -/
def drABC : String → Except String recentlyPlayedRes :=
  fun _ => .ok ⟨⟨[⟨1, "A"⟩, ⟨2, "B"⟩, ⟨3, "C"⟩]⟩⟩

/-- Fixture recently-played decoder: parse failure with the Go parser
message. -/
def drErr : String → Except String recentlyPlayedRes :=
  fun _ => .error "unexpected end of JSON input"

/-- Fixture achievements decoder: game G with one achievement N (D)
unlocked at 5. -/
def daG : String → Except String playerAchievementsRes :=
  fun _ => .ok ⟨⟨"G", [⟨5, "N", "D"⟩], ""⟩⟩

/-- Fixture achievements decoder: the private-profile sentinel. -/
def daNotPublic : String → Except String playerAchievementsRes :=
  fun _ => .ok ⟨⟨"", [], "Profile is not public"⟩⟩

/-- Fixture achievements decoder: parse failure with the Go parser
message. -/
def daErr : String → Except String playerAchievementsRes :=
  fun _ => .error "unexpected end of JSON input"

/-- Fixture: a dataset for game name G fetched first, with one
achievement unlocked at 1. -/
def resGEarly : playerAchievementsRes :=
  ⟨⟨"G", [⟨1, "early", "e"⟩], ""⟩⟩

/-- Fixture: a dataset for the same game name G fetched second, with one
achievement unlocked at 2. -/
def resGLate : playerAchievementsRes :=
  ⟨⟨"G", [⟨2, "late", "l"⟩], ""⟩⟩

/-- Fixture achievements decoder: app id 1 yields resGEarly, every other
request yields resGLate; both report game name G. -/
def daDup : String → Except String playerAchievementsRes :=
  fun b => if b = playerAchievementsUrl "k" "999" 1 then .ok resGEarly else .ok resGLate

/-!  Helper lemmas about the colour formatter.  -/

theorem colourListAux_length (n : Nat) (l : List String) :
    (colourListAux n l).length = l.length := by
  induction l generalizing n with
  | nil => rfl
  | cons x xs ih => simp [colourListAux, ih]

theorem colourListAux_getD (n i : Nat) (l : List String) (h : i < l.length) :
    (colourListAux n l).getD i ""
      = "\x7b" ++ colourAt (n + i) ++ "\x7d" ++ l.getD i "" ++ "\x7bclear\x7d" := by
  induction l generalizing n i with
  | nil => simp at h
  | cons x xs ih =>
    cases i with
    | zero => simp [colourListAux]
    | succ k =>
      have hk : k < xs.length := by simpa using h
      have := ih (n + 1) k hk
      simpa [colourListAux, Nat.add_assoc, Nat.add_comm 1 k] using this

theorem colourAt_mod (i : Nat) : colourAt i = colours.getD (i % 7) "" := by
  simp [colourAt, colours]

/-- The traversal sequence of newestAchievement: every achievement of
every entry, paired with the entry it belongs to, in iteration order. -/
def allPairs (am : List (String × playerAchievementsRes)) :
    List (playerAchievementsRes × playerAchievement) :=
  am.flatMap (fun kv => kv.2.PlayerStats.Achievements.map (fun a => (kv.2, a)))

/-- One comparison step of the newestAchievement scan. -/
def selStep (acc p : playerAchievementsRes × playerAchievement) :
    playerAchievementsRes × playerAchievement :=
  if p.2.UnlockTime > acc.2.UnlockTime then p else acc

theorem foldl_inner_eq (as : playerAchievementsRes) (l : List playerAchievement)
    (acc : playerAchievementsRes × playerAchievement) :
    l.foldl (fun acc2 a => if a.UnlockTime > acc2.2.UnlockTime then (as, a) else acc2) acc
      = (l.map (fun a => (as, a))).foldl selStep acc := by
  induction l generalizing acc with
  | nil => rfl
  | cons a rest ih => simp [selStep, ih]

theorem newestAchievement_eq_foldl (am : List (String × playerAchievementsRes)) :
    newestAchievement am
      = (allPairs am).foldl selStep (emptyAchievementsRes, initialNewest) := by
  suffices h : ∀ acc, am.foldl
      (fun acc kv =>
        kv.2.PlayerStats.Achievements.foldl
          (fun acc2 a => if a.UnlockTime > acc2.2.UnlockTime then (kv.2, a) else acc2) acc)
      acc = (allPairs am).foldl selStep acc from h _
  induction am with
  | nil => intro acc; rfl
  | cons kv rest ih =>
    intro acc
    simp only [List.foldl_cons, allPairs, List.flatMap_cons, List.foldl_append]
    rw [foldl_inner_eq, ih]
    simp [allPairs]

/-- Characterisation of the running-maximum scan: either nothing beat the
accumulator, or the result is an element of the list, strictly beats the
accumulator, bounds every element, and is the first element of the list
reaching its unlock time. -/
theorem foldl_selStep_spec (l : List (playerAchievementsRes × playerAchievement))
    (acc : playerAchievementsRes × playerAchievement) :
    (l.foldl selStep acc = acc ∧ ∀ p ∈ l, p.2.UnlockTime ≤ acc.2.UnlockTime)
    ∨ (l.foldl selStep acc ∈ l
       ∧ acc.2.UnlockTime < (l.foldl selStep acc).2.UnlockTime
       ∧ (∀ p ∈ l, p.2.UnlockTime ≤ (l.foldl selStep acc).2.UnlockTime)
       ∧ l.find? (fun p => decide ((l.foldl selStep acc).2.UnlockTime ≤ p.2.UnlockTime))
           = some (l.foldl selStep acc)) := by
  induction l generalizing acc with
  | nil => exact Or.inl ⟨rfl, by simp⟩
  | cons x xs ih =>
    by_cases hx : x.2.UnlockTime > acc.2.UnlockTime
    · have hstep : selStep acc x = x := by simp [selStep, hx]
      have hfold : (x :: xs).foldl selStep acc = xs.foldl selStep x := by
        simp [List.foldl_cons, hstep]
      rcases ih x with ⟨heq, hbnd⟩ | ⟨hmem, hlt, hbnd, hfind⟩
      · refine Or.inr ?_
        rw [hfold, heq]
        refine ⟨List.mem_cons_self x xs, hx, ?_, ?_⟩
        · intro p hp
          rcases List.mem_cons.mp hp with h | h
          · exact le_of_eq (by rw [h])
          · exact hbnd p h
        · rw [List.find?_cons_of_pos _ (by simp)]
      · refine Or.inr ?_
        rw [hfold]
        refine ⟨List.mem_cons_of_mem x hmem, lt_trans hx hlt, ?_, ?_⟩
        · intro p hp
          rcases List.mem_cons.mp hp with h | h
          · exact le_of_lt (by rw [h]; exact hlt)
          · exact hbnd p h
        · rw [List.find?_cons_of_neg _ (by simp; exact lt_of_le_of_lt (le_refl _) hlt)]
          exact hfind
    · have hstep : selStep acc x = acc := by simp [selStep, hx]
      have hfold : (x :: xs).foldl selStep acc = xs.foldl selStep acc := by
        simp [List.foldl_cons, hstep]
      have hxle : x.2.UnlockTime ≤ acc.2.UnlockTime := le_of_not_lt hx
      rcases ih acc with ⟨heq, hbnd⟩ | ⟨hmem, hlt, hbnd, hfind⟩
      · refine Or.inl ⟨by rw [hfold, heq], ?_⟩
        intro p hp
        rcases List.mem_cons.mp hp with h | h
        · exact h ▸ hxle
        · exact hbnd p h
      · refine Or.inr ?_
        rw [hfold]
        refine ⟨List.mem_cons_of_mem x hmem, hlt, ?_, ?_⟩
        · intro p hp
          rcases List.mem_cons.mp hp with h | h
          · exact h ▸ le_of_lt (lt_of_le_of_lt hxle hlt)
          · exact hbnd p h
        · rw [List.find?_cons_of_neg _ (by simp; exact lt_of_le_of_lt hxle hlt)]
          exact hfind

/-- The greatest unlock time over the whole traversal, with 0 as floor. -/
def maxUnlock (am : List (String × playerAchievementsRes)) : Int :=
  (allPairs am).foldl (fun acc p => max acc p.2.UnlockTime) 0

theorem foldl_max_le (l : List (playerAchievementsRes × playerAchievement)) (a b : Int)
    (ha : a ≤ b) (h : ∀ p ∈ l, p.2.UnlockTime ≤ b) :
    l.foldl (fun acc p => max acc p.2.UnlockTime) a ≤ b := by
  induction l generalizing a with
  | nil => simpa using ha
  | cons x xs ih =>
    simp only [List.foldl_cons]
    exact ih _ (max_le ha (h x (List.mem_cons_self x xs)))
      (fun p hp => h p (List.mem_cons_of_mem x hp))

theorem init_le_foldl_max (l : List (playerAchievementsRes × playerAchievement)) (a : Int) :
    a ≤ l.foldl (fun acc p => max acc p.2.UnlockTime) a := by
  induction l generalizing a with
  | nil => simp
  | cons x xs ih =>
    simp only [List.foldl_cons]
    exact le_trans (le_max_left _ _) (ih _)

theorem mem_le_foldl_max (l : List (playerAchievementsRes × playerAchievement))
    (p : playerAchievementsRes × playerAchievement) (hp : p ∈ l) (a : Int) :
    p.2.UnlockTime ≤ l.foldl (fun acc p => max acc p.2.UnlockTime) a := by
  induction l generalizing a with
  | nil => simp at hp
  | cons x xs ih =>
    simp only [List.foldl_cons]
    rcases List.mem_cons.mp hp with h | h
    · exact le_trans (h ▸ le_max_right _ _) (init_le_foldl_max xs _)
    · exact ih h _

theorem find?_congr_mem {α : Type} (l : List α) (p q : α → Bool)
    (h : ∀ a ∈ l, p a = q a) : l.find? p = l.find? q := by
  induction l with
  | nil => rfl
  | cons x xs ih =>
    have hx := h x (List.mem_cons_self x xs)
    by_cases hpx : p x = true
    · rw [List.find?_cons_of_pos _ hpx, List.find?_cons_of_pos _ (hx ▸ hpx)]
    · rw [List.find?_cons_of_neg _ hpx, List.find?_cons_of_neg _ (hx ▸ hpx)]
      exact ih (fun a ha => h a (List.mem_cons_of_mem x ha))

/-- C5: colourList preserves length and order, wraps the item at index i
as \x7bcolour\x7ditem\x7bclear\x7d with the palette colour at position
i mod 7 (so index 7 reuses the colour of index 0), and maps the empty
list to the empty list. -/
theorem colourTag_spec (l : List String) :
    (colourList l).length = l.length
    ∧ (∀ i, i < l.length →
        (colourList l).getD i ""
          = "\x7b" ++ colours.getD (i % 7) "" ++ "\x7d" ++ l.getD i "" ++ "\x7bclear\x7d")
    ∧ colourAt 7 = colourAt 0
    ∧ colourList [] = [] := by
  refine ⟨colourListAux_length 0 l, ?_, by decide, rfl⟩
  intro i hi
  have h := colourListAux_getD 0 i l hi
  simpa [colourList, colourAt_mod] using h

theorem colourTag_spec_witness :
    (colourList ["a", "b", "c", "d", "e", "f", "g", "h"]).getD 7 ""
      = "\x7bgreen\x7dh\x7bclear\x7d" :=
  ((colourTag_spec ["a", "b", "c", "d", "e", "f", "g", "h"]).2.1 7 (by decide)).trans
    (by decide)

/-- C1: when some achievement has a positive unlock time, newestAchievement
returns a pair from the traversal (the winning achievement together with
the title dataset it belongs to) whose unlock time is positive and bounds
every achievement of every title; when every achievement has unlock time 0
(in particular when the map is empty), it returns the initial sentinel
pair, never selecting a zero-time achievement. -/
theorem selectNewest_max_spec (am : List (String × playerAchievementsRes)) :
    ((∃ p ∈ allPairs am, 0 < p.2.UnlockTime) →
      0 < (newestAchievement am).2.UnlockTime
      ∧ (∀ p ∈ allPairs am, p.2.UnlockTime ≤ (newestAchievement am).2.UnlockTime)
      ∧ newestAchievement am ∈ allPairs am)
    ∧ ((∀ p ∈ allPairs am, p.2.UnlockTime = 0) →
      newestAchievement am = (emptyAchievementsRes, initialNewest)) := by
  have hfold := newestAchievement_eq_foldl am
  have hspec := foldl_selStep_spec (allPairs am) (emptyAchievementsRes, initialNewest)
  constructor
  · rintro ⟨p, hp, hppos⟩
    rcases hspec with ⟨heq, hbnd⟩ | ⟨hmem, hlt, hbnd, _⟩
    · exact absurd (hbnd p hp) (by simp [initialNewest]; exact hppos)
    · refine ⟨?_, ?_, ?_⟩
      · rw [hfold]; simpa [initialNewest] using hlt
      · intro q hq; rw [hfold]; exact hbnd q hq
      · rw [hfold]; exact hmem
  · intro hall
    rcases hspec with ⟨heq, _⟩ | ⟨hmem, hlt, _, _⟩
    · rw [hfold, heq]
    · have := hall _ hmem
      rw [this] at hlt
      exact absurd hlt (by simp [initialNewest])

theorem selectNewest_max_spec_witness :
    (∃ p ∈ allPairs [("A", resA), ("B", resB)], 0 < p.2.UnlockTime)
    ∧ 0 < (newestAchievement [("A", resA), ("B", resB)]).2.UnlockTime :=
  ⟨by decide, ((selectNewest_max_spec [("A", resA), ("B", resB)]).1 (by decide)).1⟩

/-- C8: when the greatest unlock time of the traversal is positive, the
winner of newestAchievement carries exactly that unlock time and is the
first pair of the traversal sequence reaching it: a later achievement
with an equal unlock time never replaces it. -/
theorem selectNewest_tiebreak_spec (am : List (String × playerAchievementsRes))
    (hpos : 0 < maxUnlock am) :
    (newestAchievement am).2.UnlockTime = maxUnlock am
    ∧ (allPairs am).find? (fun p => p.2.UnlockTime == maxUnlock am)
        = some (newestAchievement am) := by
  have hfold := newestAchievement_eq_foldl am
  rcases foldl_selStep_spec (allPairs am) (emptyAchievementsRes, initialNewest) with
    ⟨heq, hbnd⟩ | ⟨hmem, hlt, hbnd, hfind⟩
  · exact absurd hpos (by
      simp only [maxUnlock, not_lt]
      exact foldl_max_le _ 0 0 le_rfl (fun p hp => by
        have := hbnd p hp; simpa [initialNewest] using this))
  · rw [← hfold] at hmem hlt hbnd hfind
    have hstart : (0 : Int) < (newestAchievement am).2.UnlockTime := by
      simpa [initialNewest] using hlt
    have hmax : maxUnlock am = (newestAchievement am).2.UnlockTime := by
      refine le_antisymm ?_ ?_
      · exact foldl_max_le _ 0 _ (le_of_lt hstart) hbnd
      · exact mem_le_foldl_max _ _ hmem 0
    refine ⟨hmax.symm, ?_⟩
    rw [← hfind]
    apply find?_congr_mem
    intro p hp
    by_cases h : p.2.UnlockTime = (newestAchievement am).2.UnlockTime
    · simp [h, hmax]
    · have h1 : ¬ (newestAchievement am).2.UnlockTime ≤ p.2.UnlockTime :=
        fun hc => h (le_antisymm (hbnd p hp) hc)
      have h2 : p.2.UnlockTime ≠ maxUnlock am := by rw [hmax]; exact h
      simp [h1, h2]

theorem selectNewest_tiebreak_spec_witness :
    (allPairs [("T1", resT1), ("T2", resT2)]).find?
        (fun p => p.2.UnlockTime == maxUnlock [("T1", resT1), ("T2", resT2)])
      = some (newestAchievement [("T1", resT1), ("T2", resT2)]) :=
  (selectNewest_tiebreak_spec [("T1", resT1), ("T2", resT2)] (by decide)).2

/-!  Helper lemmas about the association-list model of the Go map.  -/

theorem lookup_map_replace_self (m : List (String × playerAchievementsRes))
    (k : String) (v : playerAchievementsRes)
    (h : m.any (fun p => p.1 = k) = true) :
    mapLookup (m.map (fun p => if p.1 = k then (k, v) else p)) k = some v := by
  induction m with
  | nil => simp at h
  | cons x m' ih =>
    by_cases hx : x.1 = k
    · simp [mapLookup, hx]
    · have h' : m'.any (fun p => p.1 = k) = true := by
        simpa [List.any_cons, hx] using h
      have := ih h'
      simpa [mapLookup, hx] using this

theorem lookup_map_replace_other (m : List (String × playerAchievementsRes))
    (k g : String) (v : playerAchievementsRes) (hg : g ≠ k) :
    mapLookup (m.map (fun p => if p.1 = k then (k, v) else p)) g = mapLookup m g := by
  induction m with
  | nil => rfl
  | cons x m' ih =>
    by_cases hx : x.1 = k
    · have hkg : ¬ (k = g) := fun hc => hg hc.symm
      have hxg : ¬ (x.1 = g) := by rw [hx]; exact hkg
      simpa [mapLookup, hx, hkg, hxg] using ih
    · have hfx : (if x.1 = k then (k, v) else x) = x := by simp [hx]
      have hmap : (x :: m').map (fun p => if p.1 = k then (k, v) else p)
          = x :: m'.map (fun p => if p.1 = k then (k, v) else p) := by
        rw [List.map_cons, hfx]
      by_cases hxg : x.1 = g
      · rw [hmap]
        unfold mapLookup
        rw [List.find?_cons_of_pos _ (by simp [hxg]),
          List.find?_cons_of_pos _ (by simp [hxg])]
      · rw [hmap]
        unfold mapLookup
        rw [List.find?_cons_of_neg _ (by simp [hxg]),
          List.find?_cons_of_neg _ (by simp [hxg])]
        exact ih

theorem mapLookup_insert_self (m : List (String × playerAchievementsRes))
    (k : String) (v : playerAchievementsRes) :
    mapLookup (mapInsert m k v) k = some v := by
  unfold mapInsert
  by_cases h : m.any (fun p => p.1 = k) = true
  · rw [if_pos h]
    exact lookup_map_replace_self m k v h
  · rw [if_neg h]
    have hnone : m.find? (fun p => p.1 = k) = none := by
      refine List.find?_eq_none.mpr ?_
      intro p hp
      have := List.any_eq_true.not.mp h
      push_neg at this
      have hk := this p hp
      simpa using hk
    simp [mapLookup, List.find?_append, hnone]

theorem mapLookup_insert_other (m : List (String × playerAchievementsRes))
    (k g : String) (v : playerAchievementsRes) (hg : g ≠ k) :
    mapLookup (mapInsert m k v) g = mapLookup m g := by
  unfold mapInsert
  by_cases h : m.any (fun p => p.1 = k) = true
  · rw [if_pos h]
    exact lookup_map_replace_other m k g v hg
  · rw [if_neg h]
    have hsing : ([((k : String), v)]).find? (fun p => p.1 = g) = none := by
      have : ¬ (k = g) := fun hc => hg hc.symm
      simp [this]
    simp [mapLookup, List.find?_append, hsing]

theorem mem_mapInsert (m : List (String × playerAchievementsRes))
    (k : String) (v : playerAchievementsRes) (p : String × playerAchievementsRes)
    (hp : p ∈ mapInsert m k v) : p ∈ m ∨ p = (k, v) := by
  unfold mapInsert at hp
  by_cases h : m.any (fun p => p.1 = k) = true
  · rw [if_pos h] at hp
    rcases List.mem_map.mp hp with ⟨q, hq, hfq⟩
    by_cases hqk : q.1 = k
    · right; rw [← hfq]; simp [hqk]
    · left; rw [← hfq]; simpa [hqk] using hq
  · rw [if_neg h] at hp
    rcases List.mem_append.mp hp with h1 | h1
    · exact Or.inl h1
    · exact Or.inr (by simpa using h1)

theorem keys_mapInsert_nodup (m : List (String × playerAchievementsRes))
    (k : String) (v : playerAchievementsRes)
    (h : (m.map Prod.fst).Nodup) : ((mapInsert m k v).map Prod.fst).Nodup := by
  unfold mapInsert
  by_cases hany : m.any (fun p => p.1 = k) = true
  · rw [if_pos hany]
    have hkeys : (m.map (fun p => if p.1 = k then (k, v) else p)).map Prod.fst
        = m.map Prod.fst := by
      rw [List.map_map]
      refine List.map_congr_left ?_
      intro p _
      by_cases hp : p.1 = k
      · simp [hp]
      · simp [hp]
    rw [hkeys]; exact h
  · rw [if_neg hany]
    have hk : k ∉ m.map Prod.fst := by
      intro hc
      rcases List.mem_map.mp hc with ⟨q, hq, hfq⟩
      have := List.any_eq_true.not.mp hany
      push_neg at this
      have := this q hq
      simp at this
      exact this hfq
    simp [List.nodup_append, h, hk]

theorem lookup_of_mem_nodup (m : List (String × playerAchievementsRes))
    (k : String) (v : playerAchievementsRes)
    (hnodup : (m.map Prod.fst).Nodup) (hmem : (k, v) ∈ m) :
    mapLookup m k = some v := by
  induction m with
  | nil => simp at hmem
  | cons x m' ih =>
    rcases List.mem_cons.mp hmem with h | h
    · rw [← h]
      simp [mapLookup]
    · have hn : (x.1 :: m'.map Prod.fst).Nodup := by
        rw [← List.map_cons]; exact hnodup
      have hx : x.1 ≠ k := by
        intro hc
        have hk : k ∈ m'.map Prod.fst := List.mem_map.mpr ⟨(k, v), h, rfl⟩
        have hnotin := (List.nodup_cons.mp hn).1
        rw [hc] at hnotin
        exact hnotin hk
      have := ih (List.nodup_cons.mp hn).2 h
      simpa [mapLookup, hx] using this

/-!  Helper lemmas about the pipeline operations.  -/

theorem getRecentlyPlayed_ne_notFound (dr : String → Except String recentlyPlayedRes)
    (client : Client) (apiKey id : String) :
    getRecentlyPlayed dr client apiKey id ≠ .error .profileNotFound := by
  intro hc
  unfold getRecentlyPlayed at hc
  split at hc
  · simp at hc
  · split at hc
    · simp at hc
    · simp at hc

theorem getAchievements_ne_notFound (da : String → Except String playerAchievementsRes)
    (client : Client) (apiKey id : String) (appId : Int) :
    getAchievements da client apiKey id appId ≠ .error .profileNotFound := by
  intro hc
  unfold getAchievements at hc
  split at hc
  · simp at hc
  · split at hc
    · simp at hc
    · split at hc
      · simp at hc
      · simp at hc

theorem buildAchievementsMap_ne_notFound (da : String → Except String playerAchievementsRes)
    (client : Client) (apiKey id : String) (ids : List Int)
    (m0 : List (String × playerAchievementsRes)) :
    buildAchievementsMap da client apiKey id ids m0 ≠ .error .profileNotFound := by
  induction ids generalizing m0 with
  | nil => intro hc; simp [buildAchievementsMap] at hc
  | cons i rest ih =>
    intro hc
    unfold buildAchievementsMap at hc
    cases h1 : getAchievements da client apiKey id i <;> rw [h1] at hc
    · simp at hc
      exact getAchievements_ne_notFound da client apiKey id i (by rw [h1, hc])
    · exact ih _ hc

theorem buildAchievementsMap_append (da : String → Except String playerAchievementsRes)
    (client : Client) (apiKey id : String) (xs ys : List Int)
    (m0 : List (String × playerAchievementsRes)) :
    buildAchievementsMap da client apiKey id (xs ++ ys) m0
      = (buildAchievementsMap da client apiKey id xs m0).bind
          (buildAchievementsMap da client apiKey id ys) := by
  induction xs generalizing m0 with
  | nil => simp [buildAchievementsMap, Except.bind]
  | cons x rest ih =>
    simp only [List.cons_append]
    unfold buildAchievementsMap
    cases h1 : getAchievements da client apiKey id x
    · simp [Except.bind]
    · exact ih _

theorem buildAchievementsMap_invariant (da : String → Except String playerAchievementsRes)
    (client : Client) (apiKey id : String)
    (P : List (String × playerAchievementsRes) → Prop)
    (hstep : ∀ m r, P m → P (mapInsert m r.PlayerStats.GameName r))
    (ids : List Int) (m0 m : List (String × playerAchievementsRes))
    (hbuild : buildAchievementsMap da client apiKey id ids m0 = .ok m)
    (h0 : P m0) : P m := by
  induction ids generalizing m0 with
  | nil =>
    simp [buildAchievementsMap] at hbuild
    rw [← hbuild]; exact h0
  | cons i rest ih =>
    unfold buildAchievementsMap at hbuild
    cases h1 : getAchievements da client apiKey id i <;> rw [h1] at hbuild
    · simp at hbuild
    · exact ih _ hbuild (hstep _ _ h0)

theorem buildAchievementsMap_error_of (da : String → Except String playerAchievementsRes)
    (client : Client) (apiKey id : String) (l1 l2 : List Int) (i : Int) (e : goError)
    (hok : ∀ k ∈ l1, ∀ e', getAchievements da client apiKey id k ≠ .error e')
    (herr : getAchievements da client apiKey id i = .error e)
    (m0 : List (String × playerAchievementsRes)) :
    buildAchievementsMap da client apiKey id (l1 ++ i :: l2) m0 = .error e := by
  induction l1 generalizing m0 with
  | nil =>
    simp only [List.nil_append]
    unfold buildAchievementsMap
    rw [herr]
  | cons k rest ih =>
    simp only [List.cons_append]
    unfold buildAchievementsMap
    cases h1 : getAchievements da client apiKey id k
    · exact absurd h1 (hok k (List.mem_cons_self k rest) _)
    · exact ih (fun k' hk' => hok k' (List.mem_cons_of_mem k hk')) _

theorem buildAchievementsMap_lookup_untouched
    (da : String → Except String playerAchievementsRes)
    (client : Client) (apiKey id : String) (g : String) (ids : List Int)
    (m0 m : List (String × playerAchievementsRes))
    (hbuild : buildAchievementsMap da client apiKey id ids m0 = .ok m)
    (hg : ∀ k ∈ ids, ∀ rk, getAchievements da client apiKey id k = .ok rk →
      rk.PlayerStats.GameName ≠ g) :
    mapLookup m g = mapLookup m0 g := by
  induction ids generalizing m0 with
  | nil =>
    simp [buildAchievementsMap] at hbuild
    rw [hbuild]
  | cons i rest ih =>
    unfold buildAchievementsMap at hbuild
    cases h1 : getAchievements da client apiKey id i <;> rw [h1] at hbuild
    · simp at hbuild
    · rename_i ri
      have hstep := ih _ hbuild (fun k hk => hg k (List.mem_cons_of_mem i hk))
      rw [hstep]
      exact mapLookup_insert_other m0 _ g ri
        (fun hc => hg i (List.mem_cons_self i rest) ri h1 hc.symm)

/-- C3: a decoded vanity response whose success flag is not 1 makes
steamGetId fail with the profileNotFoundErr sentinel; steamLastGame and
steamLastAchievement convert that failure into the normal reply
quoting the user name, with no error; and neither resolver ever
propagates the sentinel. -/
theorem notFound_conversion_spec (dv : String → Except String resolveVanityURLRes)
    (dr : String → Except String recentlyPlayedRes)
    (da : String → Except String playerAchievementsRes)
    (client : Client) (apiKey user : String) :
    (∀ res j, client (resolveVanityUrl apiKey user) = .ok res → dv res.Body = .ok j →
      j.Response.Success ≠ 1 →
      steamGetId dv client apiKey user = .error .profileNotFound)
    ∧ (steamGetId dv client apiKey user = .error .profileNotFound →
      steamLastGame dv dr client apiKey user = .ok ("Error: no id found for " ++ user)
      ∧ steamLastAchievement dv dr da client apiKey user
          = .ok ("Error: no id found for " ++ user))
    ∧ steamLastGame dv dr client apiKey user ≠ .error .profileNotFound
    ∧ steamLastAchievement dv dr da client apiKey user ≠ .error .profileNotFound := by
  refine ⟨?_, ?_, ?_, ?_⟩
  · intro res j h1 h2 h3
    simp [steamGetId, h1, h2, h3]
  · intro h
    exact ⟨by simp [steamLastGame, h], by simp [steamLastAchievement, h]⟩
  · cases hid : steamGetId dv client apiKey user with
    | error e => cases e <;> simp [steamLastGame, hid]
    | ok id =>
      cases hrp : getRecentlyPlayed dr client apiKey id with
      | error e =>
        cases e with
        | profileNotFound =>
          exact absurd hrp (getRecentlyPlayed_ne_notFound dr client apiKey id)
        | transport msg => simp [steamLastGame, hid, hrp]
        | decode msg => simp [steamLastGame, hid, hrp]
        | profileNotPublic => simp [steamLastGame, hid, hrp]
      | ok rp =>
        by_cases hlen : rp.Response.Games.length = 0 <;>
          simp [steamLastGame, hid, hrp, hlen]
  · cases hid : steamGetId dv client apiKey user with
    | error e => cases e <;> simp [steamLastAchievement, hid]
    | ok id =>
      cases hrp : getRecentlyPlayed dr client apiKey id with
      | error e =>
        cases e with
        | profileNotFound =>
          exact absurd hrp (getRecentlyPlayed_ne_notFound dr client apiKey id)
        | transport msg => simp [steamLastAchievement, hid, hrp]
        | decode msg => simp [steamLastAchievement, hid, hrp]
        | profileNotPublic => simp [steamLastAchievement, hid, hrp]
      | ok rp =>
        cases hbm : buildAchievementsMap da client apiKey id rp.Ids [] with
        | error e =>
          cases e with
          | profileNotFound =>
            exact absurd hbm
              (buildAchievementsMap_ne_notFound da client apiKey id rp.Ids [])
          | transport msg => simp [steamLastAchievement, hid, hrp, hbm]
          | decode msg => simp [steamLastAchievement, hid, hrp, hbm]
          | profileNotPublic => simp [steamLastAchievement, hid, hrp, hbm]
        | ok am =>
          by_cases hz : (newestAchievement am).2.UnlockTime = 0 <;>
            simp [steamLastAchievement, hid, hrp, hbm, hz]

theorem notFound_conversion_spec_witness :
    steamGetId dvNotFound okClient "k" "u" = .error .profileNotFound
    ∧ steamLastGame dvNotFound drOne okClient "k" "u" = .ok ("Error: no id found for " ++ "u")
    ∧ steamLastAchievement dvNotFound drOne daG okClient "k" "u"
        = .ok ("Error: no id found for " ++ "u") := by
  have h1 := (notFound_conversion_spec dvNotFound drOne daG okClient "k" "u").1
    ⟨200, resolveVanityUrl "k" "u"⟩ ⟨⟨"", 0⟩⟩ rfl rfl (by decide)
  have h2 := (notFound_conversion_spec dvNotFound drOne daG okClient "k" "u").2.1 h1
  exact ⟨h1, h2.1, h2.2⟩

/-- C7: on each of the three fetch operations, a transport-successful
response whose body the JSON decoder rejects with message m yields the
decode error carrying m verbatim; and a decode failure at any stage is
propagated out of steamLastGame and steamLastAchievement as a hard
error, never converted into a reply. -/
theorem decodeError_propagation_spec (dv : String → Except String resolveVanityURLRes)
    (dr : String → Except String recentlyPlayedRes)
    (da : String → Except String playerAchievementsRes)
    (client : Client) (apiKey user id : String) (appId : Int) (m : String) :
    (∀ res, client (resolveVanityUrl apiKey user) = .ok res → dv res.Body = .error m →
      steamGetId dv client apiKey user = .error (.decode m))
    ∧ (∀ res, client (recentlyPlayedUrl apiKey id) = .ok res → dr res.Body = .error m →
      getRecentlyPlayed dr client apiKey id = .error (.decode m))
    ∧ (∀ res, client (playerAchievementsUrl apiKey id appId) = .ok res →
      da res.Body = .error m →
      getAchievements da client apiKey id appId = .error (.decode m))
    ∧ (steamGetId dv client apiKey user = .error (.decode m) →
      steamLastGame dv dr client apiKey user = .error (.decode m)
      ∧ steamLastAchievement dv dr da client apiKey user = .error (.decode m))
    ∧ (steamGetId dv client apiKey user = .ok id →
      getRecentlyPlayed dr client apiKey id = .error (.decode m) →
      steamLastGame dv dr client apiKey user = .error (.decode m)
      ∧ steamLastAchievement dv dr da client apiKey user = .error (.decode m))
    ∧ (∀ rp, steamGetId dv client apiKey user = .ok id →
      getRecentlyPlayed dr client apiKey id = .ok rp →
      buildAchievementsMap da client apiKey id rp.Ids [] = .error (.decode m) →
      steamLastAchievement dv dr da client apiKey user = .error (.decode m)) := by
  refine ⟨?_, ?_, ?_, ?_, ?_, ?_⟩
  · intro res h1 h2
    simp [steamGetId, h1, h2]
  · intro res h1 h2
    simp [getRecentlyPlayed, h1, h2]
  · intro res h1 h2
    simp [getAchievements, h1, h2]
  · intro h
    exact ⟨by simp [steamLastGame, h], by simp [steamLastAchievement, h]⟩
  · intro h1 h2
    exact ⟨by simp [steamLastGame, h1, h2], by simp [steamLastAchievement, h1, h2]⟩
  · intro rp h1 h2 h3
    simp [steamLastAchievement, h1, h2, h3]

theorem decodeError_propagation_spec_witness :
    steamGetId dvErr okClient "k" "u" = .error (.decode "unexpected end of JSON input")
    ∧ steamLastGame dvErr drOne okClient "k" "u"
        = .error (.decode "unexpected end of JSON input")
    ∧ steamLastAchievement dvErr drOne daG okClient "k" "u"
        = .error (.decode "unexpected end of JSON input") := by
  have h1 := (decodeError_propagation_spec dvErr drOne daG okClient "k" "u" "999" 1
    "unexpected end of JSON input").1 ⟨200, resolveVanityUrl "k" "u"⟩ rfl rfl
  have h2 := (decodeError_propagation_spec dvErr drOne daG okClient "k" "u" "999" 1
    "unexpected end of JSON input").2.2.2.1 h1
  exact ⟨h1, h2.1, h2.2⟩

/-- C10: none of the three fetch operations inspects the HTTP status
code: two transports that succeed with the same body for the requested
URL, whatever their status codes, give identical results. -/
theorem statusCode_ignored_spec (dv : String → Except String resolveVanityURLRes)
    (dr : String → Except String recentlyPlayedRes)
    (da : String → Except String playerAchievementsRes)
    (c1 c2 : Client) (apiKey user id : String) (appId : Int) (r1 r2 : httpResponse) :
    (c1 (resolveVanityUrl apiKey user) = .ok r1 →
      c2 (resolveVanityUrl apiKey user) = .ok r2 → r1.Body = r2.Body →
      steamGetId dv c1 apiKey user = steamGetId dv c2 apiKey user)
    ∧ (c1 (recentlyPlayedUrl apiKey id) = .ok r1 →
      c2 (recentlyPlayedUrl apiKey id) = .ok r2 → r1.Body = r2.Body →
      getRecentlyPlayed dr c1 apiKey id = getRecentlyPlayed dr c2 apiKey id)
    ∧ (c1 (playerAchievementsUrl apiKey id appId) = .ok r1 →
      c2 (playerAchievementsUrl apiKey id appId) = .ok r2 → r1.Body = r2.Body →
      getAchievements da c1 apiKey id appId = getAchievements da c2 apiKey id appId) := by
  refine ⟨?_, ?_, ?_⟩
  · intro h1 h2 hb
    simp [steamGetId, h1, h2, hb]
  · intro h1 h2 hb
    simp [getRecentlyPlayed, h1, h2, hb]
  · intro h1 h2 hb
    simp [getAchievements, h1, h2, hb]

theorem statusCode_ignored_spec_witness :
    steamGetId dvOk okClient "k" "u" = steamGetId dvOk client500 "k" "u"
    ∧ getRecentlyPlayed drOne okClient "k" "999"
        = getRecentlyPlayed drOne client500 "k" "999"
    ∧ getAchievements daG okClient "k" "999" 1
        = getAchievements daG client500 "k" "999" 1 :=
  ⟨(statusCode_ignored_spec dvOk drOne daG okClient client500 "k" "u" "999" 1
      ⟨200, resolveVanityUrl "k" "u"⟩ ⟨500, resolveVanityUrl "k" "u"⟩).1 rfl rfl rfl,
    (statusCode_ignored_spec dvOk drOne daG okClient client500 "k" "u" "999" 1
      ⟨200, recentlyPlayedUrl "k" "999"⟩ ⟨500, recentlyPlayedUrl "k" "999"⟩).2.1 rfl rfl rfl,
    (statusCode_ignored_spec dvOk drOne daG okClient client500 "k" "u" "999" 1
      ⟨200, playerAchievementsUrl "k" "999" 1⟩
      ⟨500, playerAchievementsUrl "k" "999" 1⟩).2.2 rfl rfl rfl⟩

/-- C6: after a successful resolution and recently-played fetch,
steamLastGame replies with the no-games sentence on an empty title list,
and otherwise with the colour-tagged title names in list order joined by
comma-space; for three titles named A, B, C the reply carries green, red
and blue tags in that order. -/
theorem lastGame_reply_spec (dv : String → Except String resolveVanityURLRes)
    (dr : String → Except String recentlyPlayedRes)
    (client : Client) (apiKey user id : String) (rp : recentlyPlayedRes)
    (hid : steamGetId dv client apiKey user = .ok id)
    (hrp : getRecentlyPlayed dr client apiKey id = .ok rp) :
    (rp.Response.Games = [] →
      steamLastGame dv dr client apiKey user
        = .ok (user ++ " has no recently played steam games"))
    ∧ (rp.Response.Games ≠ [] →
      steamLastGame dv dr client apiKey user
        = .ok (user ++ "\x27s recently played steam games: "
          ++ String.intercalate ", " (colourList (rp.Response.Games.map (fun g => g.Name)))))
    ∧ (∀ a1 a2 a3 : Int, rp.Response.Games = [⟨a1, "A"⟩, ⟨a2, "B"⟩, ⟨a3, "C"⟩] →
      steamLastGame dv dr client apiKey user
        = .ok (user ++ "\x27s recently played steam games: "
          ++ "\x7bgreen\x7dA\x7bclear\x7d, \x7bred\x7dB\x7bclear\x7d, \x7bblue\x7dC\x7bclear\x7d")) := by
  refine ⟨?_, ?_, ?_⟩
  · intro h
    simp [steamLastGame, hid, hrp, h]
  · intro h
    have hlen : rp.Response.Games.length ≠ 0 := by
      simpa [List.length_eq_zero] using h
    simp [steamLastGame, hid, hrp, hlen, recentlyPlayedRes.Names]
  · intro a1 a2 a3 hg
    have hstr : String.intercalate ", " (colourList ["A", "B", "C"])
        = "\x7bgreen\x7dA\x7bclear\x7d, \x7bred\x7dB\x7bclear\x7d, \x7bblue\x7dC\x7bclear\x7d" := by
      decide
    simp [steamLastGame, hid, hrp, hg, recentlyPlayedRes.Names, hstr]

theorem lastGame_reply_spec_witness :
    steamLastGame dvOk drABC okClient "k" "u"
      = .ok ("u" ++ "\x27s recently played steam games: "
        ++ "\x7bgreen\x7dA\x7bclear\x7d, \x7bred\x7dB\x7bclear\x7d, \x7bblue\x7dC\x7bclear\x7d") :=
  (lastGame_reply_spec dvOk drABC okClient "k" "u" "999" ⟨⟨[⟨1, "A"⟩, ⟨2, "B"⟩, ⟨3, "C"⟩]⟩⟩
    rfl rfl).2.2 1 2 3 rfl

/-- C2 (counterexample to the claimed format): a successful run whose
aggregation selects achievement N (description D) of title G replies
with the title name first and the achievement in parentheses after the
hyphen, not with the achievement first as the claim states. -/
theorem lastAchievement_reply_format_counterexample :
    steamLastAchievement dvOk drOne daG okClient "k" "u"
      = .ok "u\x27s last steam achievement: G - N (D)"
    ∧ ("u\x27s last steam achievement: G - N (D)" : String)
      ≠ "u\x27s last steam achievement: N (D) - G" := by
  exact ⟨rfl, by decide⟩

/-- C2 (amended): for every successful steamLastAchievement run whose
aggregation yields a winning achievement, the reply is exactly
user + "\x27s last steam achievement: " + title name + " - "
+ achievement name + " (" + achievement description + ")". -/
theorem lastAchievement_reply_format (dv : String → Except String resolveVanityURLRes)
    (dr : String → Except String recentlyPlayedRes)
    (da : String → Except String playerAchievementsRes)
    (client : Client) (apiKey user id : String) (rp : recentlyPlayedRes)
    (am : List (String × playerAchievementsRes))
    (g : playerAchievementsRes) (n : playerAchievement)
    (hid : steamGetId dv client apiKey user = .ok id)
    (hrp : getRecentlyPlayed dr client apiKey id = .ok rp)
    (hbm : buildAchievementsMap da client apiKey id rp.Ids [] = .ok am)
    (hwin : newestAchievement am = (g, n))
    (hnz : n.UnlockTime ≠ 0) :
    steamLastAchievement dv dr da client apiKey user
      = .ok (user ++ "\x27s last steam achievement: " ++ g.PlayerStats.GameName
        ++ " - " ++ n.Name ++ " (" ++ n.Description ++ ")") := by
  simp [steamLastAchievement, hid, hrp, hbm, hwin, hnz]

theorem lastAchievement_reply_format_witness :
    steamLastAchievement dvOk drOne daG okClient "k" "u"
      = .ok ("u" ++ "\x27s last steam achievement: " ++ "G"
        ++ " - " ++ "N" ++ " (" ++ "D" ++ ")") :=
  lastAchievement_reply_format dvOk drOne daG okClient "k" "u" "999" ⟨⟨[⟨1, "G"⟩]⟩⟩
    [("G", ⟨⟨"G", [⟨5, "N", "D"⟩], ""⟩⟩)] ⟨⟨"G", [⟨5, "N", "D"⟩], ""⟩⟩ ⟨5, "N", "D"⟩
    rfl rfl rfl rfl (by decide)

/-- C4: getAchievements fails with the profileNotPublicErr sentinel
exactly when the decoded Error field equals the upstream sentinel string
by exact comparison; when some per-title fetch inside steamLastAchievement
fails with it (every earlier fetch having succeeded), the whole command
short-circuits into the normal not-public reply, while any other kind of
fetch failure is propagated as an error. -/
theorem notPublic_spec (da : String → Except String playerAchievementsRes)
    (dv : String → Except String resolveVanityURLRes)
    (dr : String → Except String recentlyPlayedRes)
    (client : Client) (apiKey user id : String) (appId : Int)
    (res : httpResponse) (j : playerAchievementsRes) (rp : recentlyPlayedRes)
    (l1 l2 : List Int) (i : Int) (e : goError) :
    (client (playerAchievementsUrl apiKey id appId) = .ok res → da res.Body = .ok j →
      (getAchievements da client apiKey id appId = .error .profileNotPublic
        ↔ j.PlayerStats.Error = "Profile is not public"))
    ∧ (steamGetId dv client apiKey user = .ok id →
      getRecentlyPlayed dr client apiKey id = .ok rp →
      rp.Ids = l1 ++ i :: l2 →
      (∀ k ∈ l1, ∀ e', getAchievements da client apiKey id k ≠ .error e') →
      getAchievements da client apiKey id i = .error .profileNotPublic →
      steamLastAchievement dv dr da client apiKey user
        = .ok "Error: profile is not public")
    ∧ (steamGetId dv client apiKey user = .ok id →
      getRecentlyPlayed dr client apiKey id = .ok rp →
      rp.Ids = l1 ++ i :: l2 →
      (∀ k ∈ l1, ∀ e', getAchievements da client apiKey id k ≠ .error e') →
      getAchievements da client apiKey id i = .error e → e ≠ .profileNotPublic →
      steamLastAchievement dv dr da client apiKey user = .error e) := by
  refine ⟨?_, ?_, ?_⟩
  · intro h1 h2
    constructor
    · intro hp
      by_cases hj : j.PlayerStats.Error = "Profile is not public"
      · exact hj
      · exfalso
        simp [getAchievements, h1, h2, hj] at hp
    · intro hj
      simp [getAchievements, h1, h2, hj]
  · intro h1 h2 hids hok hp
    have hbm : buildAchievementsMap da client apiKey id rp.Ids []
        = .error .profileNotPublic := by
      rw [hids]
      exact buildAchievementsMap_error_of da client apiKey id l1 l2 i _ hok hp []
    simp [steamLastAchievement, h1, h2, hbm]
  · intro h1 h2 hids hok he hne
    have hbm : buildAchievementsMap da client apiKey id rp.Ids [] = .error e := by
      rw [hids]
      exact buildAchievementsMap_error_of da client apiKey id l1 l2 i _ hok he []
    cases e with
    | transport msg => simp [steamLastAchievement, h1, h2, hbm]
    | decode msg => simp [steamLastAchievement, h1, h2, hbm]
    | profileNotFound => simp [steamLastAchievement, h1, h2, hbm]
    | profileNotPublic => exact absurd rfl hne

theorem notPublic_spec_witness :
    getAchievements daNotPublic okClient "k" "999" 1 = .error .profileNotPublic
    ∧ steamLastAchievement dvOk drOne daNotPublic okClient "k" "u"
        = .ok "Error: profile is not public" :=
  ⟨((notPublic_spec daNotPublic dvOk drOne okClient "k" "u" "999" 1
      ⟨200, playerAchievementsUrl "k" "999" 1⟩ ⟨⟨"", [], "Profile is not public"⟩⟩
      ⟨⟨[⟨1, "G"⟩]⟩⟩ [] [] 1 .profileNotFound).1 rfl rfl).mpr rfl,
    (notPublic_spec daNotPublic dvOk drOne okClient "k" "u" "999" 1
      ⟨200, playerAchievementsUrl "k" "999" 1⟩ ⟨⟨"", [], "Profile is not public"⟩⟩
      ⟨⟨[⟨1, "G"⟩]⟩⟩ [] [] 1 .profileNotFound).2.1 rfl rfl rfl (by simp) rfl⟩

/-- C9: the per-title results of the achievement loop are keyed by the
reported game name, so when a later fetched title reports the same game
name as an earlier one (and no later fetch reuses that name again), the
later result overwrites the earlier one: the built map holds the later
dataset under that name and the earlier dataset appears nowhere in the
map the aggregator scans. -/
theorem achievementsMap_overwrite_spec (da : String → Except String playerAchievementsRes)
    (client : Client) (apiKey id : String) (l1 l2 l3 : List Int) (i j : Int)
    (ri rj : playerAchievementsRes) (m : List (String × playerAchievementsRes))
    (hi : getAchievements da client apiKey id i = .ok ri)
    (hj : getAchievements da client apiKey id j = .ok rj)
    (hname : ri.PlayerStats.GameName = rj.PlayerStats.GameName)
    (hdiff : ri ≠ rj)
    (hlast : ∀ k ∈ l3, ∀ rk, getAchievements da client apiKey id k = .ok rk →
      rk.PlayerStats.GameName ≠ rj.PlayerStats.GameName)
    (hbuild : buildAchievementsMap da client apiKey id
      (l1 ++ (i :: (l2 ++ (j :: l3)))) [] = .ok m) :
    mapLookup m rj.PlayerStats.GameName = some rj
    ∧ ∀ p ∈ m, p.2 ≠ ri := by
  have hinv : (∀ p ∈ m, p.1 = p.2.PlayerStats.GameName) ∧ (m.map Prod.fst).Nodup := by
    refine buildAchievementsMap_invariant da client apiKey id
      (fun m' => (∀ p ∈ m', p.1 = p.2.PlayerStats.GameName) ∧ (m'.map Prod.fst).Nodup)
      ?_ _ [] m hbuild ⟨by simp, by simp⟩
    intro m' r ⟨hown, hnd⟩
    refine ⟨?_, keys_mapInsert_nodup m' _ r hnd⟩
    intro p hp
    rcases mem_mapInsert m' _ r p hp with h | h
    · exact hown p h
    · rw [h]
  have hlook : mapLookup m rj.PlayerStats.GameName = some rj := by
    cases hb1 : buildAchievementsMap da client apiKey id l1 [] with
    | error e =>
      rw [buildAchievementsMap_append, hb1] at hbuild
      simp [Except.bind] at hbuild
    | ok m1 =>
      rw [buildAchievementsMap_append, hb1] at hbuild
      simp only [Except.bind] at hbuild
      have hstep1 : buildAchievementsMap da client apiKey id [i] m1
          = .ok (mapInsert m1 ri.PlayerStats.GameName ri) := by
        simp [buildAchievementsMap, hi]
      rw [show (i :: (l2 ++ (j :: l3))) = [i] ++ (l2 ++ (j :: l3)) from rfl,
        buildAchievementsMap_append, hstep1] at hbuild
      simp only [Except.bind] at hbuild
      cases hb2 : buildAchievementsMap da client apiKey id l2
          (mapInsert m1 ri.PlayerStats.GameName ri) with
      | error e =>
        rw [buildAchievementsMap_append, hb2] at hbuild
        simp [Except.bind] at hbuild
      | ok m2 =>
        rw [buildAchievementsMap_append, hb2] at hbuild
        simp only [Except.bind] at hbuild
        have hstep2 : buildAchievementsMap da client apiKey id [j] m2
            = .ok (mapInsert m2 rj.PlayerStats.GameName rj) := by
          simp [buildAchievementsMap, hj]
        rw [show (j :: l3) = [j] ++ l3 from rfl,
          buildAchievementsMap_append, hstep2] at hbuild
        simp only [Except.bind] at hbuild
        have := buildAchievementsMap_lookup_untouched da client apiKey id
          rj.PlayerStats.GameName l3 _ m hbuild hlast
        rw [this]
        exact mapLookup_insert_self m2 _ rj
  refine ⟨hlook, ?_⟩
  intro p hp hri
  have hkey : p.1 = rj.PlayerStats.GameName := by
    rw [hinv.1 p hp, hri, hname]
  have hpair : p = (rj.PlayerStats.GameName, ri) := by
    cases p with
    | mk a b =>
      simp at hkey hri
      rw [hkey, hri]
  have hlook2 : mapLookup m rj.PlayerStats.GameName = some ri :=
    lookup_of_mem_nodup m _ ri hinv.2 (hpair ▸ hp)
  rw [hlook] at hlook2
  exact hdiff (by injection hlook2 with h; rw [h])

theorem achievementsMap_overwrite_spec_witness :
    mapLookup [("G", resGLate)] resGLate.PlayerStats.GameName = some resGLate
    ∧ ∀ p ∈ [("G", resGLate)], p.2 ≠ resGEarly :=
  achievementsMap_overwrite_spec daDup okClient "k" "999" [] [] [] 1 2
    resGEarly resGLate [("G", resGLate)] rfl rfl rfl (by decide) (by simp) rfl
